import Mathlib

/-!
Shallow embedding of `src/data_extractor.py` (class `HealthcareDataExtractor`)
from the healthcare-doc-processing repository.

Conventions of the embedding:
* Python strings are Lean `String` (a list of `Char`); character classes are
  modelled over their ASCII meaning (the repository only feeds ASCII OCR text
  through these patterns).
* Python dicts that are built by insertion are association lists preserving
  insertion order; the registered rule sets have pairwise distinct keys.
* Python `float(...)` values are modelled exactly, as `PyNum` (a rational for
  finite values plus `inf`/`-inf`/`nan`), since every value the claims touch
  is an exact decimal.
* `datetime.utcnow().isoformat()` is modelled by an explicit `now : String`
  argument threaded into the entry point (the clock is an external input).
* `datetime.strptime` with the five registered formats is modelled by the
  CPython `_strptime` regexes for `%m`, `%d`, `%y`, `%Y` (including their
  alternation order and backtracking) followed by `datetime.date` validation.
-/

namespace HDoc

/-- Numeric value of a decimal digit character. -/
def dv (c : Char) : Nat := c.toNat - 48

/-- ASCII decimal digit test (`\d` over ASCII, also `str.isdigit` range). -/
def isDig (c : Char) : Bool := decide ('0' ≤ c ∧ c ≤ '9')

/-- The digit character for `n` (used with `n < 10`). -/
def digCh (n : Nat) : Char := Char.ofNat (48 + n)

/-- Python whitespace as stripped by `str.strip()` / matched by `\s` (ASCII part). -/
def isPySpace (c : Char) : Bool :=
  c = ' ' || c = '\t' || c = '\n' || c = '\r' || c = '\x0b' || c = '\x0c'

/-- `str.strip()` over the character list. -/
def pyStrip (cs : List Char) : List Char :=
  ((cs.dropWhile isPySpace).reverse.dropWhile isPySpace).reverse

/-!
## `_parse_date`: the CPython strptime model

`_strptime` compiles each directive to a regex fragment and anchors the whole
format; a leftover suffix raises `ValueError`.  Fragments used by the five
formats of `_parse_date`:
* `%m` → `1[0-2]|0[1-9]|[1-9]`
* `%d` → `3[01]|[12]\d|0[1-9]|[1-9]`
* `%y` → `\d\d` (value `≤ 68` maps to `2000+`, else `1900+`)
* `%Y` → `\d\d\d\d`
After the regex matches, `datetime.date(year, month, day)` validates the
calendar date; failure falls through to the next format in `_parse_date`.
Each `*Cands` function lists the alternation's candidates (captured value and
remaining input) in the regex's backtracking priority order.
-/

/-- Candidates of the `%m` fragment `1[0-2]|0[1-9]|[1-9]`. -/
def mCands (cs : List Char) : List (Nat × List Char) :=
  (match cs with
   | c1 :: c2 :: r => if c1 = '1' ∧ '0' ≤ c2 ∧ c2 ≤ '2' then [(10 + dv c2, r)] else []
   | _ => []) ++
  (match cs with
   | c1 :: c2 :: r => if c1 = '0' ∧ '1' ≤ c2 ∧ c2 ≤ '9' then [(dv c2, r)] else []
   | _ => []) ++
  (match cs with
   | c1 :: r => if '1' ≤ c1 ∧ c1 ≤ '9' then [(dv c1, r)] else []
   | _ => [])

/-- Candidates of the `%d` fragment `3[01]|[12]\d|0[1-9]|[1-9]`. -/
def dCands (cs : List Char) : List (Nat × List Char) :=
  (match cs with
   | c1 :: c2 :: r => if c1 = '3' ∧ '0' ≤ c2 ∧ c2 ≤ '1' then [(30 + dv c2, r)] else []
   | _ => []) ++
  (match cs with
   | c1 :: c2 :: r =>
       if ('1' ≤ c1 ∧ c1 ≤ '2') ∧ isDig c2 = true then [(10 * dv c1 + dv c2, r)] else []
   | _ => []) ++
  (match cs with
   | c1 :: c2 :: r => if c1 = '0' ∧ '1' ≤ c2 ∧ c2 ≤ '9' then [(dv c2, r)] else []
   | _ => []) ++
  (match cs with
   | c1 :: r => if '1' ≤ c1 ∧ c1 ≤ '9' then [(dv c1, r)] else []
   | _ => [])

/-- Candidates of the `%y` fragment `\d\d`, with CPython's century rule. -/
def yCands2 (cs : List Char) : List (Nat × List Char) :=
  match cs with
  | c1 :: c2 :: r =>
      if isDig c1 = true ∧ isDig c2 = true then
        [((if 10 * dv c1 + dv c2 ≤ 68 then 2000 + 10 * dv c1 + dv c2
           else 1900 + 10 * dv c1 + dv c2), r)]
      else []
  | _ => []

/-- Candidates of the `%Y` fragment `\d\d\d\d`. -/
def yCands4 (cs : List Char) : List (Nat × List Char) :=
  match cs with
  | c1 :: c2 :: c3 :: c4 :: r =>
      if isDig c1 = true ∧ isDig c2 = true ∧ isDig c3 = true ∧ isDig c4 = true then
        [(1000 * dv c1 + 100 * dv c2 + 10 * dv c3 + dv c4, r)]
      else []
  | _ => []

/-- Match a literal separator character, then continue. -/
def litSep (sep : Char) (k : List Char → Option (Nat × Nat × Nat)) :
    List Char → Option (Nat × Nat × Nat)
  | [] => none
  | c :: r => if c = sep then k r else none

/-- Anchored match of `%m sep %d sep year` (whole input), backtracking order. -/
def fullMDY (sep : Char) (yc : List Char → List (Nat × List Char)) (cs : List Char) :
    Option (Nat × Nat × Nat) :=
  (mCands cs).findSome? fun mc =>
    litSep sep (fun r1 =>
      (dCands r1).findSome? fun dc =>
        litSep sep (fun r2 =>
          (yc r2).findSome? fun yc2 =>
            if yc2.2 = [] then some (yc2.1, mc.1, dc.1) else none) dc.2) mc.2

/-- Anchored match of `%Y-%m-%d` (whole input), backtracking order. -/
def fullYMD (cs : List Char) : Option (Nat × Nat × Nat) :=
  (yCands4 cs).findSome? fun yc =>
    litSep '-' (fun r1 =>
      (mCands r1).findSome? fun mc =>
        litSep '-' (fun r2 =>
          (dCands r2).findSome? fun dc =>
            if dc.2 = [] then some (yc.1, mc.1, dc.1) else none) mc.2) yc.2

/-- Gregorian leap-year rule used by `datetime.date`. -/
def isLeapYear (y : Nat) : Bool :=
  (y % 4 = 0 && y % 100 ≠ 0) || y % 400 = 0

/-- Number of days of month `m` in year `y` (`datetime.date` bounds). -/
def daysInMonth (y m : Nat) : Nat :=
  if m = 2 then (if isLeapYear y then 29 else 28)
  else if m = 4 ∨ m = 6 ∨ m = 9 ∨ m = 11 then 30
  else 31

/-- Validity check performed by the `datetime.date` constructor. -/
def validDate (y m d : Nat) : Bool :=
  decide (1 ≤ y) && decide (y ≤ 9999) && decide (1 ≤ m) && decide (m ≤ 12) &&
  decide (1 ≤ d) && decide (d ≤ daysInMonth y m)

/-- Keep a regex match only if it is a valid calendar date. -/
def checkedDate : Option (Nat × Nat × Nat) → Option (Nat × Nat × Nat)
  | none => none
  | some t => if validDate t.1 t.2.1 t.2.2 then some t else none

/-- The five formats tried by `_parse_date`, in source order. -/
inductive DFmt where
  | mdY_slash | mdY_dash | Ymd | mdy_slash | mdy_dash
deriving DecidableEq

/-- `datetime.strptime(date_str, fmt).date()` for the five formats:
`none` models the `ValueError` branch. -/
def strptimeDate : DFmt → List Char → Option (Nat × Nat × Nat)
  | .mdY_slash, cs => checkedDate (fullMDY '/' yCands4 cs)
  | .mdY_dash, cs => checkedDate (fullMDY '-' yCands4 cs)
  | .Ymd, cs => checkedDate (fullYMD cs)
  | .mdy_slash, cs => checkedDate (fullMDY '/' yCands2 cs)
  | .mdy_dash, cs => checkedDate (fullMDY '-' yCands2 cs)

/-- Two-digit zero-padded rendering (`%02d`). -/
def pad2 (n : Nat) : List Char := [digCh (n / 10 % 10), digCh (n % 10)]

/-- Four-digit zero-padded rendering (`%04d`). -/
def pad4 (n : Nat) : List Char :=
  [digCh (n / 1000 % 10), digCh (n / 100 % 10), digCh (n / 10 % 10), digCh (n % 10)]

/-- `datetime.date(y, m, d).isoformat()`. -/
def isoformat (y m d : Nat) : String :=
  ⟨pad4 y ++ '-' :: (pad2 m ++ '-' :: pad2 d)⟩

/-- The `for fmt in [...]` loop body of `_parse_date`: first format that both
matches and validates wins. -/
def tryFormats : List DFmt → String → Option String
  | [], _ => none
  | f :: fs, s =>
    match strptimeDate f s.data with
    | some (y, m, d) => some (isoformat y m d)
    | none => tryFormats fs s

/-- The format list of `_parse_date`, in source order:
`%m/%d/%Y`, `%m-%d-%Y`, `%Y-%m-%d`, `%m/%d/%y`, `%m-%d-%y`. -/
def fmtOrder : List DFmt := [.mdY_slash, .mdY_dash, .Ymd, .mdy_slash, .mdy_dash]

/-- `HealthcareDataExtractor._parse_date`: `none` models Python `None`
(returned for falsy input); otherwise the first matching format's ISO
rendering, or the original string if no format matches. -/
def parse_date (date_str : String) : Option String :=
  if date_str = "" then none
  else
    match tryFormats fmtOrder date_str with
    | some iso => some iso
    | none => some date_str

/-!
## `float(...)`: the CPython decimal-string grammar

`float(s)` strips whitespace, accepts an optional sign, then either an
infinity/NaN word or a decimal number `digits [. digits]` / `. digits` with an
optional exponent; single underscores may sit between digits.  Values are kept
exact: finite results are rationals, plus the special words.
-/

/-- A Python `float` value as produced by `float(str)`, kept exact. -/
inductive PyNum where
  | finite (q : ℚ)
  | inf
  | neginf
  | nan
deriving DecidableEq

/-- Parse `digit ('_'? digit)*`, returning (value, digit count, rest);
an underscore must be followed by a digit to be consumed. -/
def digitsUGo (acc cnt : Nat) : List Char → Nat × Nat × List Char
  | [] => (acc, cnt, [])
  | c :: cs =>
    if isDig c then digitsUGo (10 * acc + dv c) (cnt + 1) cs
    else if c = '_' then
      match cs with
      | c2 :: cs2 =>
        if isDig c2 then digitsUGo (10 * acc + dv c2) (cnt + 1) cs2
        else (acc, cnt, c :: cs)
      | [] => (acc, cnt, c :: cs)
    else (acc, cnt, c :: cs)

/-- Parse a nonempty underscore-grouped digit run; `none` if no leading digit. -/
def digitsU (cs : List Char) : Option (Nat × Nat × List Char) :=
  match cs with
  | c :: cs2 => if isDig c then some (digitsUGo (dv c) 1 cs2) else none
  | [] => none

/-- Case-insensitive match of a literal ASCII word, returning the rest. -/
def ciPrefix (w : List Char) (cs : List Char) : Option (List Char) :=
  match w, cs with
  | [], r => some r
  | _ :: _, [] => none
  | a :: w2, c :: cs2 => if c.toLower = a then ciPrefix w2 cs2 else none

/-- Parse the optional exponent `('e'|'E') sign? digits`; input is positioned
at the candidate `e`.  Returns (exponent is negative, exponent, rest). -/
def parseExp (cs : List Char) : Option (Bool × Nat × List Char) :=
  match cs with
  | c :: cs2 =>
    if c = 'e' ∨ c = 'E' then
      let signed : Bool × List Char :=
        match cs2 with
        | c2 :: cs3 => if c2 = '-' then (true, cs3) else if c2 = '+' then (false, cs3) else (false, cs2)
        | [] => (false, cs2)
      match digitsU signed.2 with
      | some (e, _, r) => some (signed.1, e, r)
      | none => none
    else none
  | [] => none

/-- Fold the integer part, fraction and exponent into an exact numerator and
denominator: the parsed value is `num / den`. -/
def mantissaVal (ip fp fc : Nat) (ex : Option (Bool × Nat)) : Nat × Nat :=
  let num0 := ip * 10 ^ fc + fp
  let den0 := 10 ^ fc
  match ex with
  | some (true, e) => (num0, den0 * 10 ^ e)
  | some (false, e) => (num0 * 10 ^ e, den0)
  | none => (num0, den0)

/-- Parse the unsigned mantissa `digits [. digits] [exp]` or `. digits [exp]`,
returning the value as numerator × denominator plus the rest. -/
def parseMantissa (cs : List Char) : Option (Nat × Nat × List Char) :=
  match digitsU cs with
  | some (ip, _, r1) =>
    let frac : Nat × Nat × List Char :=
      match r1 with
      | c :: r2 =>
        if c = '.' then
          match digitsU r2 with
          | some (fp, fc, r3) => (fp, fc, r3)
          | none => (0, 0, r2)
        else (0, 0, r1)
      | [] => (0, 0, r1)
    match parseExp frac.2.2 with
    | some (negE, e, r4) =>
      some ((mantissaVal ip frac.1 frac.2.1 (some (negE, e))).1,
            (mantissaVal ip frac.1 frac.2.1 (some (negE, e))).2, r4)
    | none =>
      some ((mantissaVal ip frac.1 frac.2.1 none).1,
            (mantissaVal ip frac.1 frac.2.1 none).2, frac.2.2)
  | none =>
    match cs with
    | c :: r1 =>
      if c = '.' then
        match digitsU r1 with
        | some (fp, fc, r2) =>
          match parseExp r2 with
          | some (negE, e, r3) =>
            some ((mantissaVal 0 fp fc (some (negE, e))).1,
                  (mantissaVal 0 fp fc (some (negE, e))).2, r3)
          | none => some ((mantissaVal 0 fp fc none).1, (mantissaVal 0 fp fc none).2, r2)
        | none => none
      else none
    | [] => none

/-- `float(s)` on a character list: `none` models `ValueError`.  Finite values
are exact rationals built with `mkRat`. -/
def pyFloatParse (cs : List Char) : Option PyNum :=
  let cs1 := cs.dropWhile isPySpace
  let signed : Bool × List Char :=
    match cs1 with
    | c :: cs2 => if c = '-' then (true, cs2) else if c = '+' then (false, cs2) else (false, cs1)
    | [] => (false, cs1)
  let neg := signed.1
  let body := signed.2
  let finishAt (r : List Char) (v : PyNum) : Option PyNum :=
    if r.dropWhile isPySpace = [] then some v else none
  match ciPrefix "infinity".data body with
  | some r => finishAt r (if neg then .neginf else .inf)
  | none =>
    match ciPrefix "inf".data body with
    | some r => finishAt r (if neg then .neginf else .inf)
    | none =>
      match ciPrefix "nan".data body with
      | some r => finishAt r .nan
      | none =>
        match parseMantissa body with
        | some (num, den, r) =>
          finishAt r (.finite (mkRat (if neg then -(num : Int) else (num : Int)) den))
        | none => none

/-!
## `_post_process_fields` and `_validate_extracted_data`
-/

/-- A normalized field value: Python `str`, `float`, or `None`. -/
inductive Value where
  | str (s : String)
  | num (n : PyNum)
  | null
deriving DecidableEq

/-- Python truthiness test used by `not fields[field]` / `not value`. -/
def Value.falsy : Value → Bool
  | .str s => s = ""
  | .num (.finite q) => q = 0
  | .num _ => false
  | .null => true

/-- `needle` is a leading segment of `hay`. -/
def leadsList (needle hay : List Char) : Bool :=
  match needle, hay with
  | [], _ => true
  | _ :: _, [] => false
  | a :: ns, b :: hs => a = b && leadsList ns hs

/-- Python's `needle in hay` substring test. -/
def containsSub (needle : List Char) (hay : List Char) : Bool :=
  match hay with
  | [] => leadsList needle []
  | _ :: rest => leadsList needle hay || containsSub needle rest

/-- The `'date' in key.lower() or 'dob' in key.lower()` test. -/
def hasDateName (key : String) : Bool :=
  containsSub "date".data (key.data.map Char.toLower) ||
  containsSub "dob".data (key.data.map Char.toLower)

/-- `cleaned.replace('$', '').replace(',', '').strip()`. -/
def stripSyms (cs : List Char) : List Char :=
  pyStrip ((cs.filter (fun c => c ≠ '$')).filter (fun c => c ≠ ','))

/-- The per-field body of the `_post_process_fields` loop: strip, then coerce
by field-name convention (numeric fields first, then date-named fields). -/
def processValue (key : String) (value : String) : Value :=
  let cleaned := pyStrip value.data
  if key = "amount" ∨ key = "patient_responsibility" then
    match pyFloatParse (stripSyms cleaned) with
    | some n => .num n
    | none => .str ⟨cleaned⟩
  else if hasDateName key then
    match parse_date ⟨cleaned⟩ with
    | some s => .str s
    | none => .null
  else .str ⟨cleaned⟩

/-- `HealthcareDataExtractor._post_process_fields`: falsy raw values are
dropped, the rest are coerced in insertion order. -/
def post_process_fields (fields : List (String × String)) : List (String × Value) :=
  fields.filterMap fun kv => if kv.2 = "" then none else some (kv.1, processValue kv.1 kv.2)

/-- `datetime.fromisoformat(value)` succeeding on a calendar date
`YYYY-MM-DD` (the only shape reaching the validator's date check). -/
def fromisoformatOk (s : String) : Bool :=
  match s.data with
  | [y1, y2, y3, y4, s1, m1, m2, s2, d1, d2] =>
    isDig y1 && isDig y2 && isDig y3 && isDig y4 && s1 = '-' &&
    isDig m1 && isDig m2 && s2 = '-' && isDig d1 && isDig d2 &&
    validDate (1000 * dv y1 + 100 * dv y2 + 10 * dv y3 + dv y4)
      (10 * dv m1 + dv m2) (10 * dv d1 + dv d2)
  | _ => false

/-- Association-list lookup with decidable string equality (`dict[k]` /
`k in dict` on insertion-ordered dicts). -/
def alookup (k : String) : List (String × α) → Option α
  | [] => none
  | (k1, v) :: rest => if k = k1 then some v else alookup k rest

/-- The required-field table of `_validate_extracted_data`. -/
def required_fields : List (String × List String) :=
  [("insurance_claim", ["patient_name", "member_id", "date_of_service"]),
   ("prescription", ["patient_name", "medication", "dosage"]),
   ("medical_report", ["patient_name", "report_type"])]

/-- The required-field list consulted for a `doc_type` argument
(empty when the type is absent or not in the table). -/
def requiredOf (doc_type : Option String) : List String :=
  match doc_type with
  | some s => (alookup s required_fields).getD []
  | none => []

/-- `field not in fields or not fields[field]`. -/
def fieldMissing (fields : List (String × Value)) (f : String) : Bool :=
  match alookup f fields with
  | none => true
  | some v => v.falsy

/-- The validation report `{is_valid, errors, warnings}`. -/
structure ValidationReport where
  is_valid : Bool
  errors : List String
  warnings : List String
deriving DecidableEq

/-- `HealthcareDataExtractor._validate_extracted_data`: required-field errors
flip `is_valid`; date-format warnings are appended for string-valued
date-named fields that do not parse as ISO dates. -/
def validate (fields : List (String × Value)) (doc_type : Option String) : ValidationReport :=
  let errs := ((requiredOf doc_type).filter (fieldMissing fields)).map
    (fun f => "Missing required field: " ++ f)
  let warns := fields.filterMap fun kv =>
    match kv.2 with
    | .str v =>
      if hasDateName kv.1 && !fromisoformatOk v then
        some ("Invalid date format for " ++ kv.1 ++ ": " ++ v)
      else none
    | _ => none
  { is_valid := errs.isEmpty, errors := errs, warnings := warns }

/-!
## The pattern engine

A small backtracking matcher mirroring the `re` constructs the registered
patterns use, with `re.IGNORECASE` baked into the literals and classes and
`re.DOTALL` irrelevant (no bare `.` occurs).  `runs r cs` lists every
(consumed, rest) split of a prefix of `cs` matching `r`, in the regex
engine's backtracking priority order (greedy alternatives first), so the
head of the list is the match `re` commits to.  Character classes are the
ASCII readings of `\w`, `\s`, `\d`, `[A-Z]` (case-folded), etc.
-/

/-- `\w` (ASCII): letters, digits, underscore. -/
def wordC (c : Char) : Bool := c.isAlpha || c.isDigit || c = '_'

/-- `\s` (ASCII). -/
def spaceC (c : Char) : Bool := isPySpace c

/-- `[:\s]` and `[\s:]`. -/
def colonSp (c : Char) : Bool := c = ':' || isPySpace c

/-- `[A-Z]` under `re.IGNORECASE` (any ASCII letter). -/
def alphaC (c : Char) : Bool := c.isAlpha

/-- `[/\-]`. -/
def slashDash (c : Char) : Bool := c = '/' || c = '-'

/-- `[\s\w]` / `[\w\s]`. -/
def wsWordC (c : Char) : Bool := isPySpace c || wordC c

/-- `[A-Z0-9-]` under `re.IGNORECASE`. -/
def claimChC (c : Char) : Bool := c.isAlpha || c.isDigit || c = '-'

/-- `[-\s\.\)]`. -/
def phoneSep1 (c : Char) : Bool := c = '-' || isPySpace c || c = '.' || c = ')'

/-- `[-\s\.]`. -/
def phoneSep2 (c : Char) : Bool := c = '-' || isPySpace c || c = '.'

/-- `[\w\s-]`. -/
def wordSpDash (c : Char) : Bool := wordC c || isPySpace c || c = '-'

/-- `[\d\s\w/]`. -/
def doseC (c : Char) : Bool := c.isDigit || isPySpace c || wordC c || c = '/'

/-- `[\w\s\.]`. -/
def wordSpDot (c : Char) : Bool := wordC c || isPySpace c || c = '.'

/-- `[\w\s\.,-]`. -/
def reportC (c : Char) : Bool := wordC c || isPySpace c || c = '.' || c = ',' || c = '-'

/-- Greedy splits of a class repetition `p{lo,hi}` against a maximal
`p`-prefix, longest first. -/
def splitsDesc (p : Char → Bool) (lo hi : Nat) (cs : List Char) :
    List (List Char × List Char) :=
  let t := cs.takeWhile p
  let n := min t.length hi
  if lo ≤ n then (List.range (n + 1 - lo)).map (fun i => (t.take (n - i), cs.drop (n - i)))
  else []

/-- Lazy splits of `p+?`, shortest first. -/
def splitsAsc (p : Char → Bool) (cs : List Char) : List (List Char × List Char) :=
  let t := cs.takeWhile p
  (List.range t.length).map (fun i => (t.take (i + 1), cs.drop (i + 1)))

/-- Splits of `(?:\s+\w+)*` (the one composite star in the rule sets),
greedy: deeper iterations first, the empty iteration last.  The fuel only
bounds the recursion; `length cs + 1` is always enough because every
iteration consumes at least two characters. -/
def starSWRuns : Nat → List Char → List (List Char × List Char)
  | 0, cs => [([], cs)]
  | fuel + 1, cs =>
    (splitsDesc spaceC 1 cs.length cs).flatMap (fun s1 =>
      (splitsDesc wordC 1 s1.2.length s1.2).flatMap (fun w1 =>
        (starSWRuns fuel w1.2).map (fun t => (s1.1 ++ w1.1 ++ t.1, t.2)))) ++
    [([], cs)]

/-- The regex constructs appearing in the registered patterns. -/
inductive RE where
  | eps
  | cls (p : Char → Bool)
  | cat (a b : RE)
  | alt (a b : RE)
  | opt (a : RE)
  | starCls (p : Char → Bool)
  | plusCls (p : Char → Bool)
  | lazyPlusCls (p : Char → Bool)
  | rep (p : Char → Bool) (lo hi : Nat)
  | starSW

/-- All (consumed, rest) matches of `r` against a prefix of `cs`, in
backtracking priority order. -/
def RE.runs : RE → List Char → List (List Char × List Char)
  | .eps, cs => [([], cs)]
  | .cls p, cs =>
    match cs with
    | [] => []
    | c :: r => if p c then [([c], r)] else []
  | .cat a b, cs => (a.runs cs).flatMap (fun s => (b.runs s.2).map (fun t => (s.1 ++ t.1, t.2)))
  | .alt a b, cs => a.runs cs ++ b.runs cs
  | .opt a, cs => a.runs cs ++ [([], cs)]
  | .starCls p, cs => splitsDesc p 0 cs.length cs
  | .plusCls p, cs => splitsDesc p 1 cs.length cs
  | .lazyPlusCls p, cs => splitsAsc p cs
  | .rep p lo hi, cs => splitsDesc p lo hi cs
  | .starSW, cs => starSWRuns (cs.length + 1) cs

/-- Sequence a list of regex parts. -/
def reSeq (l : List RE) : RE := l.foldr .cat .eps

/-- A case-insensitive literal character (`re.IGNORECASE`). -/
def ciChar (c : Char) : RE := .cls (fun d => d.toLower = c)

/-- A case-insensitive literal word. -/
def ciWord (s : String) : RE := reSeq (s.data.map ciChar)

/-- A registered rule: prefix part, the single capturing group, and whether a
trailing `(?=\n|$)` / `(?=\n|\Z)` lookahead follows the group. -/
structure Pat where
  pre : RE
  grp : RE
  nlEnd : Bool

/-- Anchored attempt of a whole rule at the current position; returns the
characters consumed by the capturing group of the first backtracking match. -/
def matchAt (p : Pat) (cs : List Char) : Option (List Char) :=
  (p.pre.runs cs).findSome? fun s =>
    (p.grp.runs s.2).findSome? fun t =>
      if p.nlEnd then
        match t.2 with
        | '\n' :: _ => some t.1
        | [] => some t.1
        | _ => none
      else some t.1

/-- `re.search`: scan start positions left to right, first match wins. -/
def searchPat (p : Pat) : List Char → Option (List Char)
  | [] => matchAt p []
  | c :: cs =>
    match matchAt p (c :: cs) with
    | some cap => some cap
    | none => searchPat p cs

/-- `match.group(1).strip()`: every registered pattern has one group, and
the group participates in every match of these patterns. -/
def searchCapture (p : Pat) (cs : List Char) : Option String :=
  (searchPat p cs).map fun cap => ⟨pyStrip cap⟩

/-- `HealthcareDataExtractor._extract_using_patterns`: fields in rule order,
one entry per matching rule. -/
def extract_using_patterns (cs : List Char) : List (String × Pat) → List (String × String)
  | [] => []
  | (name, p) :: rest =>
    match searchCapture p cs with
    | some v => (name, v) :: extract_using_patterns cs rest
    | none => extract_using_patterns cs rest

/-!
## The registered rule sets (the `self.patterns` tables)
-/

/-- `(?i)(?:patient|name)[:\s]*(\w+(?:\s+\w+)*)` -/
def patient_name_pat : Pat :=
  { pre := .cat (.alt (ciWord "patient") (ciWord "name")) (.starCls colonSp),
    grp := .cat (.plusCls wordC) .starSW,
    nlEnd := false }

/-- `(?i)(?:dob|date of birth)[:\s]*(\d{1,2}[/\-]\d{1,2}[/\-]\d{2,4})` -/
def date_of_birth_pat : Pat :=
  { pre := .cat (.alt (ciWord "dob") (ciWord "date of birth")) (.starCls colonSp),
    grp := reSeq [.rep Char.isDigit 1 2, .cls slashDash, .rep Char.isDigit 1 2,
                  .cls slashDash, .rep Char.isDigit 2 4],
    nlEnd := false }

/-- `(?i)(?:member\s*id|policy\s*number)[:\s]*(\w+)` -/
def member_id_pat : Pat :=
  { pre := .cat (.alt (reSeq [ciWord "member", .starCls spaceC, ciWord "id"])
                      (reSeq [ciWord "policy", .starCls spaceC, ciWord "number"]))
                (.starCls colonSp),
    grp := .plusCls wordC,
    nlEnd := false }

/-- `(?i)(?:date of service|service date|dos)[:\s]*(\d{1,2}[/\-]\d{1,2}[/\-]\d{2,4})` -/
def date_of_service_pat : Pat :=
  { pre := .cat (.alt (ciWord "date of service") (.alt (ciWord "service date") (ciWord "dos")))
                (.starCls colonSp),
    grp := reSeq [.rep Char.isDigit 1 2, .cls slashDash, .rep Char.isDigit 1 2,
                  .cls slashDash, .rep Char.isDigit 2 4],
    nlEnd := false }

/-- `(?i)(?:provider|doctor|physician)[:\s]*(\w+(?:\s+\w+)*)` -/
def provider_name_pat : Pat :=
  { pre := .cat (.alt (ciWord "provider") (.alt (ciWord "doctor") (ciWord "physician")))
                (.starCls colonSp),
    grp := .cat (.plusCls wordC) .starSW,
    nlEnd := false }

/-- `(?i)(?:diagnosis|dx)[\s\w]*code[\s:]*([A-Z]\d{2,5}(?:\.\d+)?)` -/
def diagnosis_code_pat : Pat :=
  { pre := reSeq [.alt (ciWord "diagnosis") (ciWord "dx"), .starCls wsWordC,
                  ciWord "code", .starCls colonSp],
    grp := reSeq [.cls alphaC, .rep Char.isDigit 2 5,
                  .opt (reSeq [.cls (fun c => c = '.'), .plusCls Char.isDigit])],
    nlEnd := false }

/-- `(?i)(?:procedure|tx|treatment)[\s\w]*code[\s:]*([A-Z]\d{1,4}[A-Z]?\d{0,4})` -/
def procedure_code_pat : Pat :=
  { pre := reSeq [.alt (ciWord "procedure") (.alt (ciWord "tx") (ciWord "treatment")),
                  .starCls wsWordC, ciWord "code", .starCls colonSp],
    grp := reSeq [.cls alphaC, .rep Char.isDigit 1 4, .opt (.cls alphaC),
                  .rep Char.isDigit 0 4],
    nlEnd := false }

/-- `(?i)(?:amount|total|charge|balance)[\s:]*\$?\s*(\d+(?:\.\d{2})?)` -/
def amount_pat : Pat :=
  { pre := reSeq [.alt (ciWord "amount") (.alt (ciWord "total")
                    (.alt (ciWord "charge") (ciWord "balance"))),
                  .starCls colonSp, .opt (.cls (fun c => c = '$')), .starCls spaceC],
    grp := .cat (.plusCls Char.isDigit)
                (.opt (reSeq [.cls (fun c => c = '.'), .rep Char.isDigit 2 2])),
    nlEnd := false }

/-- `(?i)(?:phone|tel|mobile)[\s:]*([\(]?\d{3}[-\s\.\)]?\s*\d{3}[-\s\.]?\s*\d{4})` -/
def phone_pat : Pat :=
  { pre := .cat (.alt (ciWord "phone") (.alt (ciWord "tel") (ciWord "mobile")))
                (.starCls colonSp),
    grp := reSeq [.opt (.cls (fun c => c = '(')), .rep Char.isDigit 3 3,
                  .opt (.cls phoneSep1), .starCls spaceC, .rep Char.isDigit 3 3,
                  .opt (.cls phoneSep2), .starCls spaceC, .rep Char.isDigit 4 4],
    nlEnd := false }

/-- `self.patterns`, in source order. -/
def commonPatterns : List (String × Pat) :=
  [("patient_name", patient_name_pat),
   ("date_of_birth", date_of_birth_pat),
   ("member_id", member_id_pat),
   ("date_of_service", date_of_service_pat),
   ("provider_name", provider_name_pat),
   ("diagnosis_code", diagnosis_code_pat),
   ("procedure_code", procedure_code_pat),
   ("amount", amount_pat),
   ("phone", phone_pat)]

/-- `(?i)(?:claim\s*#?|id)[\s:]*([A-Z0-9-]+)` -/
def claim_number_pat : Pat :=
  { pre := .cat (.alt (reSeq [ciWord "claim", .starCls spaceC, .opt (.cls (fun c => c = '#'))])
                      (ciWord "id"))
                (.starCls colonSp),
    grp := .plusCls claimChC,
    nlEnd := false }

/-- `(?i)group\s*#?[\s:]*(\w+)` -/
def group_number_pat : Pat :=
  { pre := reSeq [ciWord "group", .starCls spaceC, .opt (.cls (fun c => c = '#')),
                  .starCls colonSp],
    grp := .plusCls wordC,
    nlEnd := false }

/-- `(?i)adjustment\s*reason[\s:]*(\w[\w\s]+?)(?=\n|$)` -/
def adjustment_reason_pat : Pat :=
  { pre := reSeq [ciWord "adjustment", .starCls spaceC, ciWord "reason", .starCls colonSp],
    grp := .cat (.cls wordC) (.lazyPlusCls wsWordC),
    nlEnd := true }

/-- `(?i)patient\s*responsibility[\s:]*\$?\s*(\d+\.\d{2})` -/
def patient_responsibility_pat : Pat :=
  { pre := reSeq [ciWord "patient", .starCls spaceC, ciWord "responsibility",
                  .starCls colonSp, .opt (.cls (fun c => c = '$')), .starCls spaceC],
    grp := reSeq [.plusCls Char.isDigit, .cls (fun c => c = '.'), .rep Char.isDigit 2 2],
    nlEnd := false }

/-- `(?i)medication[\s:]*([\w\s-]+)(?=\n|$)` -/
def medication_pat : Pat :=
  { pre := .cat (ciWord "medication") (.starCls colonSp),
    grp := .plusCls wordSpDash,
    nlEnd := true }

/-- `(?i)dosage[\s:]*([\d\s\w/]+)(?=\n|$)` -/
def dosage_pat : Pat :=
  { pre := .cat (ciWord "dosage") (.starCls colonSp),
    grp := .plusCls doseC,
    nlEnd := true }

/-- `(?i)frequency[\s:]*([\w\s]+)(?=\n|$)` -/
def frequency_pat : Pat :=
  { pre := .cat (ciWord "frequency") (.starCls colonSp),
    grp := .plusCls wsWordC,
    nlEnd := true }

/-- `(?i)refills?[\s:]*(\d+)` -/
def refills_pat : Pat :=
  { pre := reSeq [ciWord "refill", .opt (ciChar 's'), .starCls colonSp],
    grp := .plusCls Char.isDigit,
    nlEnd := false }

/-- `(?i)prescriber[\s:]*([\w\s\.]+)(?=\n|$)` -/
def prescriber_pat : Pat :=
  { pre := .cat (ciWord "prescriber") (.starCls colonSp),
    grp := .plusCls wordSpDot,
    nlEnd := true }

/-- `(?i)report\s*type[\s:]*([\w\s]+)(?=\n|$)` -/
def report_type_pat : Pat :=
  { pre := reSeq [ciWord "report", .starCls spaceC, ciWord "type", .starCls colonSp],
    grp := .plusCls wsWordC,
    nlEnd := true }

/-- `(?i)findings[\s:]*([\w\s\.,-]+)(?=\n|\Z)` -/
def findings_pat : Pat :=
  { pre := .cat (ciWord "findings") (.starCls colonSp),
    grp := .plusCls reportC,
    nlEnd := true }

/-- `(?i)impression[\s:]*([\w\s\.,-]+)(?=\n|\Z)` -/
def impression_pat : Pat :=
  { pre := .cat (ciWord "impression") (.starCls colonSp),
    grp := .plusCls reportC,
    nlEnd := true }

/-- `(?i)recommendations?[\s:]*([\w\s\.,-]+)(?=\n|\Z)` -/
def recommendations_pat : Pat :=
  { pre := reSeq [ciWord "recommendation", .opt (ciChar 's'), .starCls colonSp],
    grp := .plusCls reportC,
    nlEnd := true }

/-- `self.doc_type_patterns`, in source order. -/
def doc_type_patterns : List (String × List (String × Pat)) :=
  [("insurance_claim",
    [("claim_number", claim_number_pat),
     ("group_number", group_number_pat),
     ("adjustment_reason", adjustment_reason_pat),
     ("patient_responsibility", patient_responsibility_pat)]),
   ("prescription",
    [("medication", medication_pat),
     ("dosage", dosage_pat),
     ("frequency", frequency_pat),
     ("refills", refills_pat),
     ("prescriber", prescriber_pat)]),
   ("medical_report",
    [("report_type", report_type_pat),
     ("findings", findings_pat),
     ("impression", impression_pat),
     ("recommendations", recommendations_pat)])]

/-!
## Orchestration (`extract_structured_data`)
-/

/-- Python `dict.update`: existing keys keep their position and take the new
value; genuinely new keys are appended in the updating dict's order. -/
def dictUpdate (base ext : List (String × String)) : List (String × String) :=
  (base.map fun kv =>
    match alookup kv.1 ext with
    | some v => (kv.1, v)
    | none => kv) ++
  ext.filter (fun kv => (alookup kv.1 base).isNone)

/-- The raw field map built by `extract_structured_data` before
post-processing: common rules, then — for a registered, truthy `doc_type` —
the type-specific rules overlaid via `dict.update`. -/
def rawFields (text : String) (doc_type : Option String) : List (String × String) :=
  let common := extract_using_patterns text.data commonPatterns
  match doc_type with
  | some s =>
    if s ≠ "" then
      match alookup s doc_type_patterns with
      | some pats => dictUpdate common (extract_using_patterns text.data pats)
      | none => common
    else common
  | none => common

/-- The body of the `try:` block: extraction, normalization, validation.
`Except.error` models an escaping Python exception; every step here is total,
so the body always returns `Except.ok`. -/
def runPipeline (text : String) (doc_type : Option String) :
    Except String (List (String × Value) × ValidationReport) := do
  let fields := post_process_fields (rawFields text doc_type)
  return (fields, validate fields doc_type)

/-- The result dict of `extract_structured_data`; `none` in a field models the
key being absent from the dict (the empty-text result is the empty dict). -/
structure ExtractionResult where
  extraction_timestamp : Option String := none
  document_type : Option String := none
  extracted_fields : Option (List (String × Value)) := none
  validation : Option ValidationReport := none
  error : Option String := none
deriving DecidableEq

/-- The shape of an ISO-8601 calendar-date string `YYYY-MM-DD`: four digits,
a dash, two digits, a dash, two digits. -/
def IsoShaped (s : String) : Prop :=
  ∃ y1 y2 y3 y4 m1 m2 d1 d2 : Nat,
    y1 < 10 ∧ y2 < 10 ∧ y3 < 10 ∧ y4 < 10 ∧
    m1 < 10 ∧ m2 < 10 ∧ d1 < 10 ∧ d2 < 10 ∧
    s.data = [digCh y1, digCh y2, digCh y3, digCh y4, '-', digCh m1, digCh m2, '-',
              digCh d1, digCh d2]

/-- `doc_type or 'unknown'` (empty or absent labels are falsy). -/
def dtLabel (doc_type : Option String) : String :=
  match doc_type with
  | some s => if s = "" then "unknown" else s
  | none => "unknown"

/-- `HealthcareDataExtractor.extract_structured_data(text, doc_type)`, with
the `datetime.utcnow().isoformat()` clock passed in as `now`.  Empty text
returns the empty dict; otherwise the pipeline result is assembled, and an
escaping pipeline exception would be caught and recorded in `error` with the
partial result returned. -/
def extract_structured_data (now text : String) (doc_type : Option String) :
    ExtractionResult :=
  if text = "" then {}
  else
    let base : ExtractionResult :=
      { extraction_timestamp := some now,
        document_type := some (dtLabel doc_type),
        extracted_fields := some [] }
    match runPipeline text doc_type with
    | .ok (fields, v) => { base with extracted_fields := some fields, validation := some v }
    | .error e => { base with error := some e }

end HDoc

namespace HDoc

/-- C1: the validation report is invalid exactly when some required field for
the document type (per the `required_fields` table, which lists
`insurance_claim ↦ patient_name, member_id, date_of_service`;
`prescription ↦ patient_name, medication, dosage`;
`medical_report ↦ patient_name, report_type`) is absent from the normalized
field map or carries a falsy value; date-format warnings never affect
`is_valid`. -/
theorem invalid_iff_missing_required :
    (∀ (fields : List (String × Value)) (dt : Option String),
      (validate fields dt).is_valid = false ↔
        ∃ f ∈ requiredOf dt, fieldMissing fields f = true) ∧
    requiredOf (some "insurance_claim") = ["patient_name", "member_id", "date_of_service"] ∧
    requiredOf (some "prescription") = ["patient_name", "medication", "dosage"] ∧
    requiredOf (some "medical_report") = ["patient_name", "report_type"] := by
  refine ⟨?_, rfl, rfl, rfl⟩
  intro fields dt
  simp [validate, List.isEmpty_iff, List.map_eq_nil_iff, List.filter_eq_nil_iff]

/-- C2: for nonempty input, `_parse_date` rewrites the value to the ISO form
produced by the first matching format of the ordered list
`%m/%d/%Y, %m-%d-%Y, %Y-%m-%d, %m/%d/%y, %m-%d-%y`, and returns the input
verbatim when no format matches; in particular `"01/15/1980"` becomes
`"1980-01-15"` and `"15-01-1980"` passes through unchanged. -/
theorem date_norm_first_format_wins :
    (∀ s : String, s ≠ "" → parse_date s = some ((tryFormats fmtOrder s).getD s)) ∧
    parse_date "01/15/1980" = some "1980-01-15" ∧
    parse_date "15-01-1980" = some "15-01-1980" := by
  refine ⟨?_, by decide, by decide⟩
  intro s hs
  unfold parse_date
  rw [if_neg hs]
  cases h : tryFormats fmtOrder s <;> simp [h]

/-- Witness for C2 at `"2023-05-10"`. -/
theorem date_norm_first_format_wins_witness :
    ("2023-05-10" : String) ≠ "" ∧
    parse_date "2023-05-10" = some ((tryFormats fmtOrder "2023-05-10").getD "2023-05-10") :=
  ⟨by decide, date_norm_first_format_wins.1 "2023-05-10" (by decide)⟩

/-- C3 counterexample: on parse failure the code keeps the stripped original
value, not the `$`/`,`-stripped "cleaned" string the claim describes: for the
raw amount `"$abc"` the claim predicts `"abc"`, the code yields `"$abc"`. -/
theorem amount_parse_failure_keeps_symbols :
    processValue "amount" "$abc" ≠ Value.str ⟨stripSyms (pyStrip "$abc".data)⟩ ∧
    processValue "amount" "$abc" = Value.str "$abc" :=
  ⟨by decide, by decide⟩

/-- C3 amended: for `amount` / `patient_responsibility` fields, normalization
strips `$` and `,` from the trimmed value and parses the result as a decimal
number; on parse failure it retains the trimmed original value (with the
symbols still present) and raises no error; `"$150.00"` normalizes to the
number `150.0` and `"abc"` to the string `"abc"`. -/
theorem amount_normalization :
    (∀ v : String,
      (processValue "amount" v = (match pyFloatParse (stripSyms (pyStrip v.data)) with
        | some n => Value.num n
        | none => Value.str ⟨pyStrip v.data⟩)) ∧
      (processValue "patient_responsibility" v =
        (match pyFloatParse (stripSyms (pyStrip v.data)) with
         | some n => Value.num n
         | none => Value.str ⟨pyStrip v.data⟩))) ∧
    processValue "amount" "$150.00" = Value.num (.finite 150) ∧
    processValue "amount" "abc" = Value.str "abc" := by
  refine ⟨?_, by decide, by decide⟩
  intro v
  constructor <;>
  · simp only [processValue]
    rw [if_pos (by simp)]

/-- C5: no input makes the pipeline body fail, so `extract_structured_data`
always returns: the `try:`-block result is always `Except.ok`, the result's
`error` entry is never populated, and for nonempty text the assembled result
is returned whole. -/
theorem pipeline_total_and_caught :
    ∀ (now text : String) (dt : Option String), ∃ fields v,
      runPipeline text dt = Except.ok (fields, v) ∧
      (extract_structured_data now text dt).error = none ∧
      (text ≠ "" → extract_structured_data now text dt =
        { extraction_timestamp := some now, document_type := some (dtLabel dt),
          extracted_fields := some fields, validation := some v, error := none }) := by
  intro now text dt
  refine ⟨_, _, rfl, ?_, ?_⟩
  · by_cases h : text = "" <;> simp [extract_structured_data, h, runPipeline, pure, Except.pure]
  · intro h; simp [extract_structured_data, h, runPipeline, pure, Except.pure]

/-- Witness for C5 at a concrete claim text. -/
theorem pipeline_total_and_caught_witness :
    ∃ fields v,
      runPipeline "Total: $5.25" (some "insurance_claim") = Except.ok (fields, v) ∧
      (extract_structured_data "T0" "Total: $5.25" (some "insurance_claim")).error = none ∧
      (("Total: $5.25" : String) ≠ "" →
        extract_structured_data "T0" "Total: $5.25" (some "insurance_claim") =
        { extraction_timestamp := some "T0",
          document_type := some (dtLabel (some "insurance_claim")),
          extracted_fields := some fields, validation := some v, error := none }) :=
  pipeline_total_and_caught "T0" "Total: $5.25" (some "insurance_claim")

/-- C6: empty input text returns the empty result dict immediately — no
extracted field keys, no validation, no error — whatever the `doc_type`. -/
theorem empty_text_empty_result :
    ∀ (now : String) (dt : Option String),
      extract_structured_data now "" dt =
        { extraction_timestamp := none, document_type := none,
          extracted_fields := none, validation := none, error := none } ∧
      ((extract_structured_data now "" dt).extracted_fields.getD []).map Prod.fst = [] := by
  intro now dt
  exact ⟨rfl, rfl⟩

/-- C7 counterexample: the result embeds `datetime.utcnow()`, so two calls
with identical `text` and `doc_type` arguments made at different clock
readings return different results (the `extraction_timestamp` entries
differ): the claimed determinism in the two inputs alone fails. -/
theorem timestamp_breaks_determinism :
    extract_structured_data "2024-01-01T00:00:00" "x" none ≠
    extract_structured_data "2024-01-01T00:00:01" "x" none := by decide

/-- C7 amended: apart from `extraction_timestamp` (which records the
wall-clock reading of the call), `extract_structured_data` is a pure
deterministic function of `text` and `doc_type`: `document_type`,
`extracted_fields`, `validation` and `error` agree across any two calls with
the same arguments, whatever the clock readings. -/
theorem deterministic_modulo_timestamp :
    ∀ (now1 now2 text : String) (dt : Option String),
      (extract_structured_data now1 text dt).document_type =
        (extract_structured_data now2 text dt).document_type ∧
      (extract_structured_data now1 text dt).extracted_fields =
        (extract_structured_data now2 text dt).extracted_fields ∧
      (extract_structured_data now1 text dt).validation =
        (extract_structured_data now2 text dt).validation ∧
      (extract_structured_data now1 text dt).error =
        (extract_structured_data now2 text dt).error := by
  intro now1 now2 text dt
  by_cases h : text = "" <;> simp [extract_structured_data, h, runPipeline, pure, Except.pure]

end HDoc


namespace HDoc

theorem alookup_append (l1 l2 : List (String × α)) (k : String) :
    alookup k (l1 ++ l2) = (alookup k l1).or (alookup k l2) := by
  induction l1 with
  | nil => simp [alookup]
  | cons a l ih =>
    obtain ⟨k1, v⟩ := a
    by_cases h : k = k1 <;> simp [alookup, h, ih]

theorem alookup_mapUpd (base ext : List (String × String)) (k : String) :
    alookup k (base.map fun kv =>
      match alookup kv.1 ext with
      | some v => (kv.1, v)
      | none => kv) =
    (alookup k base).map (fun v => (alookup k ext).getD v) := by
  induction base with
  | nil => simp [alookup]
  | cons a l ih =>
    obtain ⟨k1, v1⟩ := a
    by_cases h : k = k1
    · subst h
      cases hx : alookup k ext <;> simp [alookup, hx, ih]
    · cases hx : alookup k1 ext <;> simp [alookup, hx, h, ih]

theorem alookup_filterNew (ext : List (String × String)) (base : List (String × String))
    (k : String) :
    alookup k (ext.filter fun kv => (alookup kv.1 base).isNone) =
    (if (alookup k base).isNone then alookup k ext else none) := by
  induction ext with
  | nil => simp [alookup]
  | cons a l ih =>
    obtain ⟨k1, v1⟩ := a
    by_cases h : k = k1
    · subst h
      cases hb : alookup k base <;> simp [List.filter, alookup, hb, ih]
    · cases hb : alookup k1 base <;> cases hk : alookup k base <;>
        simp [List.filter, alookup, hb, hk, h, ih]

theorem alookup_dictUpdate (base ext : List (String × String)) (k : String) :
    alookup k (dictUpdate base ext) = (alookup k ext).or (alookup k base) := by
  unfold dictUpdate
  rw [alookup_append, alookup_mapUpd, alookup_filterNew]
  cases hb : alookup k base <;> cases he : alookup k ext <;> simp

theorem mem_keys_extract {cs : List Char} {pats : List (String × Pat)} {k : String}
    (h : k ∈ (extract_using_patterns cs pats).map Prod.fst) : k ∈ pats.map Prod.fst := by
  induction pats with
  | nil => simp [extract_using_patterns] at h
  | cons a l ih =>
    obtain ⟨n, p⟩ := a
    simp only [extract_using_patterns] at h
    cases hx : searchCapture p cs <;> rw [hx] at h
    · exact List.mem_cons_of_mem _ (ih h)
    · rcases (List.mem_cons).1 h with h1 | h1
      · simp [h1]
      · exact List.mem_cons_of_mem _ (ih h1)

theorem alookup_extract_none {cs : List Char} {pats : List (String × Pat)} {k : String}
    (h : k ∉ pats.map Prod.fst) : alookup k (extract_using_patterns cs pats) = none := by
  induction pats with
  | nil => simp [extract_using_patterns, alookup]
  | cons a l ih =>
    obtain ⟨n, p⟩ := a
    simp only [List.map_cons, List.mem_cons, not_or] at h
    obtain ⟨h1, h2⟩ := h
    cases hx : searchCapture p cs <;> simp [extract_using_patterns, hx, alookup, h1, ih h2]

theorem mem_keys_post {fs : List (String × String)} {k : String}
    (h : k ∈ (post_process_fields fs).map Prod.fst) : k ∈ fs.map Prod.fst := by
  induction fs with
  | nil => simp [post_process_fields] at h
  | cons a l ih =>
    obtain ⟨k1, v1⟩ := a
    by_cases hv : v1 = "" <;>
      simp only [post_process_fields, List.filterMap, hv, if_pos, if_neg,
        reduceIte, List.map_cons, List.mem_cons] at h ⊢
    · exact Or.inr (ih h)
    · rcases h with h1 | h1
      · exact Or.inl h1
      · exact Or.inr (ih h1)

/-- C4: for a registered `doc_type`, `extract_structured_data` overlays the
type-specific ruleset's raw results on the common results: on a field-name
collision the type-specific value wins, and a common field survives whenever
the type-specific ruleset has no value for its name. -/
theorem type_specific_overlay :
    ∀ (text : String) (dt : String),
      dt ∈ ["insurance_claim", "prescription", "medical_report"] →
      ∀ k, alookup k (rawFields text (some dt)) =
        ((alookup k (extract_using_patterns text.data ((alookup dt doc_type_patterns).getD []))).or
          (alookup k (extract_using_patterns text.data commonPatterns))) := by
  intro text dt hdt k
  simp only [List.mem_cons, List.not_mem_nil, or_false] at hdt
  rcases hdt with h | h | h
  all_goals
    subst h
    simp only [rawFields, doc_type_patterns, alookup, reduceIte, ne_eq,
      String.reduceEq, not_false_eq_true, Option.getD_some]
    exact alookup_dictUpdate ..

/-- Witness for C4 on an insurance-claim text. -/
theorem type_specific_overlay_witness :
    ("insurance_claim" : String) ∈ ["insurance_claim", "prescription", "medical_report"] ∧
    alookup "amount" (rawFields "Total: $7.50" (some "insurance_claim")) =
      ((alookup "amount" (extract_using_patterns "Total: $7.50".data
          ((alookup "insurance_claim" doc_type_patterns).getD []))).or
        (alookup "amount" (extract_using_patterns "Total: $7.50".data commonPatterns))) :=
  ⟨by decide, type_specific_overlay "Total: $7.50" "insurance_claim" (by decide) "amount"⟩

theorem unregistered_tables_none (s : String)
    (h : s ∉ ["insurance_claim", "prescription", "medical_report"]) :
    alookup s doc_type_patterns = none ∧ alookup s required_fields = none := by
  simp only [List.mem_cons, List.mem_singleton, not_or] at h
  obtain ⟨h1, h2, h3⟩ := h
  simp [alookup, doc_type_patterns, required_fields, h1, h2, h3]

/-- C8: for nonempty text and an absent/unregistered `doc_type`, only the
common ruleset contributes extracted fields, validation reports no errors and
`is_valid = true`, and an absent `doc_type` is recorded as `"unknown"`. -/
theorem unknown_doc_type_common_only :
    ∀ (now text : String) (dt : Option String), text ≠ "" →
      (∀ s, dt = some s → s ∉ ["insurance_claim", "prescription", "medical_report"]) →
      (∀ k, k ∈ (((extract_structured_data now text dt).extracted_fields).getD []).map Prod.fst →
          k ∈ commonPatterns.map Prod.fst) ∧
      (∃ V, (extract_structured_data now text dt).validation = some V ∧
        V.errors = [] ∧ V.is_valid = true) ∧
      (dt = none → (extract_structured_data now text dt).document_type = some "unknown") := by
  intro now text dt htext hdt
  have hraw : rawFields text dt = extract_using_patterns text.data commonPatterns := by
    match dt with
    | none => rfl
    | some s =>
      by_cases hs : s = ""
      · simp [rawFields, hs]
      · have := (unregistered_tables_none s (hdt s rfl)).1
        simp [rawFields, hs, this]
  have hreq : requiredOf dt = [] := by
    match dt with
    | none => rfl
    | some s => simp [requiredOf, (unregistered_tables_none s (hdt s rfl)).2]
  have hres : extract_structured_data now text dt =
      { extraction_timestamp := some now, document_type := some (dtLabel dt),
        extracted_fields := some (post_process_fields (rawFields text dt)),
        validation := some (validate (post_process_fields (rawFields text dt)) dt),
        error := none } := by
    simp [extract_structured_data, htext, runPipeline, pure, Except.pure]
  refine ⟨?_, ?_, ?_⟩
  · intro k hk
    rw [hres] at hk
    simp only [Option.getD_some, hraw] at hk
    exact mem_keys_extract (mem_keys_post hk)
  · refine ⟨_, by rw [hres], ?_, ?_⟩ <;> simp [validate, hreq]
  · intro h
    subst h
    rw [hres]
    rfl

/-- Witness for C8 at a concrete unknown document type. -/
theorem unknown_doc_type_common_only_witness :
    ("Name: Al" : String) ≠ "" ∧
    (∀ s, (some "unknown_type" : Option String) = some s →
      s ∉ ["insurance_claim", "prescription", "medical_report"]) ∧
    ((∀ k, k ∈ (((extract_structured_data "T0" "Name: Al" (some "unknown_type")).extracted_fields).getD []).map Prod.fst →
        k ∈ commonPatterns.map Prod.fst) ∧
      (∃ V, (extract_structured_data "T0" "Name: Al" (some "unknown_type")).validation = some V ∧
        V.errors = [] ∧ V.is_valid = true) ∧
      ((some "unknown_type" : Option String) = none →
        (extract_structured_data "T0" "Name: Al" (some "unknown_type")).document_type = some "unknown")) :=
  ⟨by decide, by intro s hs; cases hs; decide,
   unknown_doc_type_common_only "T0" "Name: Al" (some "unknown_type") (by decide)
     (by intro s hs; cases hs; decide)⟩

end HDoc

namespace HDoc

theorem isDig_digCh {n : Nat} (h : n < 10) : isDig (digCh n) = true := by
  interval_cases n <;> decide

theorem dv_digCh {n : Nat} (h : n < 10) : dv (digCh n) = n := by
  interval_cases n <;> decide

theorem digCh_ne_slash {n : Nat} (h : n < 10) : digCh n ≠ '/' := by
  interval_cases n <;> decide

theorem digCh_ne_dash {n : Nat} (h : n < 10) : digCh n ≠ '-' := by
  interval_cases n <;> decide

theorem digCh_eq_zero_iff {n : Nat} (h : n < 10) : digCh n = '0' ↔ n = 0 := by
  interval_cases n <;> decide

theorem digCh_eq_one_iff {n : Nat} (h : n < 10) : digCh n = '1' ↔ n = 1 := by
  interval_cases n <;> decide

theorem digCh_eq_three_iff {n : Nat} (h : n < 10) : digCh n = '3' ↔ n = 3 := by
  interval_cases n <;> decide

theorem zero_le_digCh {n : Nat} (h : n < 10) : '0' ≤ digCh n := by
  interval_cases n <;> decide

theorem digCh_le_nine {n : Nat} (h : n < 10) : digCh n ≤ '9' := by
  interval_cases n <;> decide

theorem digCh_le_two_iff {n : Nat} (h : n < 10) : digCh n ≤ '2' ↔ n ≤ 2 := by
  interval_cases n <;> decide

theorem digCh_le_one_iff {n : Nat} (h : n < 10) : digCh n ≤ '1' ↔ n ≤ 1 := by
  interval_cases n <;> decide

theorem one_le_digCh_iff {n : Nat} (h : n < 10) : '1' ≤ digCh n ↔ 1 ≤ n := by
  interval_cases n <;> decide

theorem pad2_digits {a b : Nat} (ha : a < 10) (hb : b < 10) :
    pad2 (10 * a + b) = [digCh a, digCh b] := by
  have h1 : (10 * a + b) / 10 % 10 = a := by omega
  have h2 : (10 * a + b) % 10 = b := by omega
  rw [pad2, h1, h2]

theorem pad4_digits {a b c d : Nat} (ha : a < 10) (hb : b < 10) (hc : c < 10) (hd : d < 10) :
    pad4 (1000 * a + 100 * b + 10 * c + d) = [digCh a, digCh b, digCh c, digCh d] := by
  have h1 : (1000 * a + 100 * b + 10 * c + d) / 1000 % 10 = a := by omega
  have h2 : (1000 * a + 100 * b + 10 * c + d) / 100 % 10 = b := by omega
  have h3 : (1000 * a + 100 * b + 10 * c + d) / 10 % 10 = c := by omega
  have h4 : (1000 * a + 100 * b + 10 * c + d) % 10 = d := by omega
  rw [pad4, h1, h2, h3, h4]

theorem findSome?_ite_singleton {α β : Type} {P : Prop} [Decidable P] (x : α)
    (f : α → Option β) :
    (if P then [x] else []).findSome? f = if P then f x else none := by
  split_ifs
  · rw [List.findSome?_cons]
    cases f x <;> simp
  · rfl

/-- The `%m sep %d sep year` regexes cannot match a string whose second and
third characters both differ from the separator. -/
theorem fullMDY_none (sep : Char) (yc : List Char → List (Nat × List Char))
    (c1 c2 c3 : Char) (rest : List Char) (h2 : c2 ≠ sep) (h3 : c3 ≠ sep) :
    fullMDY sep yc (c1 :: c2 :: c3 :: rest) = none := by
  unfold fullMDY mCands
  rw [List.findSome?_append, List.findSome?_append, findSome?_ite_singleton,
    findSome?_ite_singleton, findSome?_ite_singleton]
  split_ifs <;> simp [litSep, h2, h3]

theorem mCands_digits {m1 m2 : Nat} (h1 : m1 < 10) (h2 : m2 < 10) (rest : List Char) :
    mCands (digCh m1 :: digCh m2 :: rest) =
      (if m1 = 1 ∧ m2 ≤ 2 then [(10 + m2, rest)] else []) ++
      (if m1 = 0 ∧ 1 ≤ m2 then [(m2, rest)] else []) ++
      (if 1 ≤ m1 then [(m1, digCh m2 :: rest)] else []) := by
  simp only [mCands, digCh_eq_one_iff h1, digCh_eq_zero_iff h1, zero_le_digCh h2,
    digCh_le_two_iff h2, one_le_digCh_iff h2, digCh_le_nine h2, one_le_digCh_iff h1,
    digCh_le_nine h1, dv_digCh h1, dv_digCh h2, true_and, and_true]

theorem dCands_digits {d1 d2 : Nat} (h1 : d1 < 10) (h2 : d2 < 10) (rest : List Char) :
    dCands (digCh d1 :: digCh d2 :: rest) =
      (if d1 = 3 ∧ d2 ≤ 1 then [(30 + d2, rest)] else []) ++
      (if 1 ≤ d1 ∧ d1 ≤ 2 then [(10 * d1 + d2, rest)] else []) ++
      (if d1 = 0 ∧ 1 ≤ d2 then [(d2, rest)] else []) ++
      (if 1 ≤ d1 then [(d1, digCh d2 :: rest)] else []) := by
  simp only [dCands, digCh_eq_three_iff h1, digCh_eq_zero_iff h1, zero_le_digCh h2,
    digCh_le_one_iff h2, one_le_digCh_iff h2, digCh_le_nine h2, one_le_digCh_iff h1,
    digCh_le_nine h1, digCh_le_two_iff h1, isDig_digCh h2, dv_digCh h1, dv_digCh h2,
    true_and, and_true]

theorem yCands4_digits {a b c d : Nat} (ha : a < 10) (hb : b < 10) (hc : c < 10)
    (hd : d < 10) (rest : List Char) :
    yCands4 (digCh a :: digCh b :: digCh c :: digCh d :: rest) =
      [(1000 * a + 100 * b + 10 * c + d, rest)] := by
  simp only [yCands4, isDig_digCh ha, isDig_digCh hb, isDig_digCh hc, isDig_digCh hd,
    dv_digCh ha, dv_digCh hb, dv_digCh hc, dv_digCh hd, and_self, if_pos, reduceIte]

theorem someOr (a : α) (o : Option α) : (some a).or o = some a := rfl

theorem noneOr (o : Option α) : (none : Option α).or o = o := rfl

set_option maxHeartbeats 1000000 in
theorem fullYMD_iso {y1 y2 y3 y4 m1 m2 d1 d2 : Nat}
    (hy1 : y1 < 10) (hy2 : y2 < 10) (hy3 : y3 < 10) (hy4 : y4 < 10)
    (hm1 : m1 < 10) (hm2 : m2 < 10) (hd1 : d1 < 10) (hd2 : d2 < 10) :
    fullYMD [digCh y1, digCh y2, digCh y3, digCh y4, '-', digCh m1, digCh m2, '-',
             digCh d1, digCh d2] =
      (if (1 ≤ 10 * m1 + m2 ∧ 10 * m1 + m2 ≤ 12) ∧ (1 ≤ 10 * d1 + d2 ∧ 10 * d1 + d2 ≤ 31)
       then some (1000 * y1 + 100 * y2 + 10 * y3 + y4, 10 * m1 + m2, 10 * d1 + d2)
       else none) := by
  unfold fullYMD
  rw [yCands4_digits hy1 hy2 hy3 hy4, List.findSome?_cons]
  simp only [litSep, if_pos rfl, List.findSome?_nil]
  rw [mCands_digits hm1 hm2, List.findSome?_append, List.findSome?_append,
    findSome?_ite_singleton, findSome?_ite_singleton, findSome?_ite_singleton]
  simp only [litSep, if_pos rfl, if_neg (digCh_ne_dash hm2)]
  rw [dCands_digits hd1 hd2]
  rw [List.findSome?_append, List.findSome?_append, List.findSome?_append,
    findSome?_ite_singleton, findSome?_ite_singleton,
    findSome?_ite_singleton, findSome?_ite_singleton]
  simp only [List.cons_ne_nil, if_false, reduceIte]
  split_ifs <;>
    simp only [List.cons_append, List.nil_append, List.append_nil, List.findSome?_cons,
      List.findSome?_nil, someOr, noneOr, reduceIte, reduceCtorEq, Option.some.injEq,
      Prod.mk.injEq, true_and, and_true] <;>
    try omega
end HDoc

namespace HDoc

/-- C9: date normalization is idempotent on ISO-shaped dates: `_parse_date`
maps every string of shape `YYYY-MM-DD` to itself — either the `%Y-%m-%d`
format matches and re-renders the same digits, or no format matches and the
string passes through verbatim. -/
theorem iso_date_idempotent : ∀ s : String, IsoShaped s → parse_date s = some s := by
  rintro s ⟨y1, y2, y3, y4, m1, m2, d1, d2, hy1, hy2, hy3, hy4, hm1, hm2, hd1, hd2, hdata⟩
  have hne : s ≠ "" := by
    intro h
    rw [h] at hdata
    simp at hdata
  have h1 : strptimeDate .mdY_slash s.data = none := by
    rw [hdata]
    show checkedDate (fullMDY '/' yCands4 _) = none
    rw [fullMDY_none '/' yCands4 _ _ _ _ (digCh_ne_slash hy2) (digCh_ne_slash hy3)]
    rfl
  have h2 : strptimeDate .mdY_dash s.data = none := by
    rw [hdata]
    show checkedDate (fullMDY '-' yCands4 _) = none
    rw [fullMDY_none '-' yCands4 _ _ _ _ (digCh_ne_dash hy2) (digCh_ne_dash hy3)]
    rfl
  have h4 : strptimeDate .mdy_slash s.data = none := by
    rw [hdata]
    show checkedDate (fullMDY '/' yCands2 _) = none
    rw [fullMDY_none '/' yCands2 _ _ _ _ (digCh_ne_slash hy2) (digCh_ne_slash hy3)]
    rfl
  have h5 : strptimeDate .mdy_dash s.data = none := by
    rw [hdata]
    show checkedDate (fullMDY '-' yCands2 _) = none
    rw [fullMDY_none '-' yCands2 _ _ _ _ (digCh_ne_dash hy2) (digCh_ne_dash hy3)]
    rfl
  have h3 : strptimeDate .Ymd s.data =
      checkedDate (if (1 ≤ 10 * m1 + m2 ∧ 10 * m1 + m2 ≤ 12) ∧
          (1 ≤ 10 * d1 + d2 ∧ 10 * d1 + d2 ≤ 31)
        then some (1000 * y1 + 100 * y2 + 10 * y3 + y4, 10 * m1 + m2, 10 * d1 + d2)
        else none) := by
    rw [show strptimeDate .Ymd s.data = checkedDate (fullYMD s.data) from rfl, hdata,
      fullYMD_iso hy1 hy2 hy3 hy4 hm1 hm2 hd1 hd2]
  unfold parse_date
  rw [if_neg hne]
  simp only [fmtOrder, tryFormats, h1, h2, h3, h4, h5]
  by_cases hok : (1 ≤ 10 * m1 + m2 ∧ 10 * m1 + m2 ≤ 12) ∧
      (1 ≤ 10 * d1 + d2 ∧ 10 * d1 + d2 ≤ 31)
  · rw [if_pos hok]
    by_cases hv : validDate (1000 * y1 + 100 * y2 + 10 * y3 + y4) (10 * m1 + m2)
        (10 * d1 + d2) = true
    · simp only [checkedDate, hv, reduceIte]
      refine congrArg some (String.ext ?_)
      show (pad4 _ ++ '-' :: (pad2 _ ++ '-' :: pad2 _)) = s.data
      rw [pad4_digits hy1 hy2 hy3 hy4, pad2_digits hm1 hm2, pad2_digits hd1 hd2, hdata]
      rfl
    · simp only [checkedDate, hv, reduceIte, Bool.false_eq_true]
  · rw [if_neg hok]
    simp only [checkedDate]

/-- Witness for C9 at `"2023-05-10"`. -/
theorem iso_date_idempotent_witness :
    IsoShaped "2023-05-10" ∧ parse_date "2023-05-10" = some "2023-05-10" :=
  ⟨⟨2, 0, 2, 3, 0, 5, 1, 0, by decide, by decide, by decide, by decide, by decide,
    by decide, by decide, by decide, by decide⟩,
   iso_date_idempotent "2023-05-10"
     ⟨2, 0, 2, 3, 0, 5, 1, 0, by decide, by decide, by decide, by decide, by decide,
      by decide, by decide, by decide, by decide⟩⟩

end HDoc

namespace HDoc

theorem mem_of_alookup_some {α : Type} {l : List (String × α)} {k : String} {v : α}
    (h : alookup k l = some v) : k ∈ l.map Prod.fst := by
  induction l with
  | nil => simp [alookup] at h
  | cons a t ih =>
    obtain ⟨k1, v1⟩ := a
    by_cases hk : k = k1
    · simp [hk]
    · simp only [alookup, if_neg hk] at h
      simp [ih h]

theorem alookup_eq_none_of_not_mem {α : Type} {l : List (String × α)} {k : String}
    (h : k ∉ l.map Prod.fst) : alookup k l = none := by
  cases ha : alookup k l with
  | none => rfl
  | some v => exact absurd (mem_of_alookup_some ha) h

theorem mem_splitsDesc {p : Char → Bool} {lo hi : Nat} {cs : List Char}
    {x : List Char × List Char} (h : x ∈ splitsDesc p lo hi cs) :
    (∀ c ∈ x.1, p c = true) ∧ lo ≤ x.1.length ∧ x.1.length ≤ hi := by
  simp only [splitsDesc] at h
  split_ifs at h with hlo
  · obtain ⟨i, hi_mem, hx⟩ := List.mem_map.1 h
    subst hx
    simp only [List.mem_range] at hi_mem
    refine ⟨fun c hc => List.mem_takeWhile_imp (List.mem_of_mem_take hc), ?_⟩
    rw [List.length_take]
    omega
  · simp at h

theorem mem_runs_cls {p : Char → Bool} {cs : List Char} {x : List Char × List Char}
    (h : x ∈ (RE.cls p).runs cs) :
    ∃ c r, cs = c :: r ∧ p c = true ∧ x = ([c], r) := by
  cases cs with
  | nil => simp [RE.runs] at h
  | cons c r =>
    simp only [RE.runs] at h
    split_ifs at h with hp
    · simp only [List.mem_singleton] at h
      exact ⟨c, r, rfl, hp, h⟩
    · simp at h

theorem mem_runs_cat {a b : RE} {cs : List Char} {x : List Char × List Char}
    (h : x ∈ (RE.cat a b).runs cs) :
    ∃ s t, s ∈ a.runs cs ∧ t ∈ b.runs s.2 ∧ x = (s.1 ++ t.1, t.2) := by
  simp only [RE.runs, List.mem_flatMap, List.mem_map] at h
  obtain ⟨s, hs, t, ht, hx⟩ := h
  exact ⟨s, t, hs, ht, hx.symm⟩

theorem mem_runs_opt {a : RE} {cs : List Char} {x : List Char × List Char}
    (h : x ∈ (RE.opt a).runs cs) :
    x ∈ a.runs cs ∨ x = ([], cs) := by
  simp only [RE.runs, List.mem_append, List.mem_singleton] at h
  exact h

theorem mem_runs_eps {cs : List Char} {x : List Char × List Char}
    (h : x ∈ RE.eps.runs cs) : x = ([], cs) := by
  simp only [RE.runs, List.mem_singleton] at h
  exact h

/-- Captures of the `amount` group `(\d+(?:\.\d{2})?)` are a nonempty digit
run, optionally followed by a dot and exactly two digits. -/
theorem amount_grp_shape {cs : List Char} {x : List Char × List Char}
    (h : x ∈ amount_pat.grp.runs cs) :
    ∃ ds tl, x.1 = ds ++ tl ∧ ds ≠ [] ∧ (∀ c ∈ ds, c.isDigit = true) ∧
      (tl = [] ∨ ∃ e1 e2, tl = ['.', e1, e2] ∧ e1.isDigit = true ∧ e2.isDigit = true) := by
  obtain ⟨s, t, hs, ht, hx⟩ := mem_runs_cat h
  have hsd := mem_splitsDesc (show s ∈ splitsDesc Char.isDigit 1 cs.length cs from hs)
  have hne : s.1 ≠ [] := by
    intro hnil
    rw [hnil] at hsd
    simp at hsd
  rcases mem_runs_opt ht with hbody | hemp
  · obtain ⟨s1, t1, hs1, ht1, hx1⟩ := mem_runs_cat hbody
    obtain ⟨c, r, hcr, hc, hxc⟩ := mem_runs_cls hs1
    obtain ⟨s2, t2, hs2, ht2, hx2⟩ := mem_runs_cat ht1
    have hs2d := mem_splitsDesc (show s2 ∈ splitsDesc Char.isDigit 2 2 s1.2 from hs2)
    have ht2e := mem_runs_eps ht2
    obtain ⟨e1, e2, he⟩ := List.length_eq_two.1 (le_antisymm hs2d.2.2 hs2d.2.1)
    refine ⟨s.1, t.1, by rw [hx], hne, hsd.1, Or.inr ⟨e1, e2, ?_, ?_, ?_⟩⟩
    · rw [hx1, hxc, hx2, ht2e]
      simp only [List.append_nil]
      rw [of_decide_eq_true hc, he]
      rfl
    · have := hs2d.1 e1 (by rw [he]; simp)
      exact this
    · have := hs2d.1 e2 (by rw [he]; simp)
      exact this
  · refine ⟨s.1, t.1, by rw [hx], hne, hsd.1, Or.inl ?_⟩
    rw [hemp]

/-- Captures of the `patient_responsibility` group `(\d+\.\d{2})` are a
nonempty digit run, a dot, and exactly two digits. -/
theorem pr_grp_shape {cs : List Char} {x : List Char × List Char}
    (h : x ∈ patient_responsibility_pat.grp.runs cs) :
    ∃ ds e1 e2, x.1 = ds ++ ['.', e1, e2] ∧ ds ≠ [] ∧ (∀ c ∈ ds, c.isDigit = true) ∧
      e1.isDigit = true ∧ e2.isDigit = true := by
  obtain ⟨s, t, hs, ht, hx⟩ := mem_runs_cat h
  have hsd := mem_splitsDesc (show s ∈ splitsDesc Char.isDigit 1 cs.length cs from hs)
  have hne : s.1 ≠ [] := by
    intro hnil
    rw [hnil] at hsd
    simp at hsd
  obtain ⟨s1, t1, hs1, ht1, hx1⟩ := mem_runs_cat ht
  obtain ⟨c, r, hcr, hc, hxc⟩ := mem_runs_cls hs1
  obtain ⟨s2, t2, hs2, ht2, hx2⟩ := mem_runs_cat ht1
  have hs2d := mem_splitsDesc (show s2 ∈ splitsDesc Char.isDigit 2 2 s1.2 from hs2)
  have ht2e := mem_runs_eps ht2
  obtain ⟨e1, e2, he⟩ := List.length_eq_two.1 (le_antisymm hs2d.2.2 hs2d.2.1)
  refine ⟨s.1, e1, e2, ?_, hne, hsd.1, ?_, ?_⟩
  · rw [hx]
    simp only []
    rw [hx1, hxc, hx2, ht2e]
    simp only [List.append_nil]
    rw [of_decide_eq_true hc, he]
    rfl
  · exact hs2d.1 e1 (by rw [he]; simp)
  · exact hs2d.1 e2 (by rw [he]; simp)

theorem matchAt_capture {p : Pat} {cs : List Char} {cap : List Char}
    (h : matchAt p cs = some cap) :
    ∃ u t, t ∈ p.grp.runs u ∧ cap = t.1 := by
  unfold matchAt at h
  obtain ⟨s, hs, h2⟩ := List.exists_of_findSome?_eq_some h
  obtain ⟨t, ht, h3⟩ := List.exists_of_findSome?_eq_some h2
  refine ⟨s.2, t, ht, ?_⟩
  split at h3
  · split at h3 <;> simp_all
  · simp_all

theorem searchPat_capture {p : Pat} {cs : List Char} {cap : List Char}
    (h : searchPat p cs = some cap) :
    ∃ u t, t ∈ p.grp.runs u ∧ cap = t.1 := by
  induction cs with
  | nil => exact matchAt_capture h
  | cons c r ih =>
    rw [searchPat] at h
    cases hm : matchAt p (c :: r) with
    | some cap2 =>
      rw [hm] at h
      cases h
      exact matchAt_capture hm
    | none =>
      rw [hm] at h
      exact ih h

end HDoc

namespace HDoc

theorem ne_of_isDigit {c : Char} (h : c.isDigit = true) {d : Char}
    (hd : d.isDigit = false) : c ≠ d := by
  intro he
  rw [he, hd] at h
  cases h

theorem isPySpace_of_isDigit {c : Char} (h : c.isDigit = true) : isPySpace c = false := by
  have h1 : c ≠ ' ' := ne_of_isDigit h (by decide)
  have h2 : c ≠ '\t' := ne_of_isDigit h (by decide)
  have h3 : c ≠ '\n' := ne_of_isDigit h (by decide)
  have h4 : c ≠ '\r' := ne_of_isDigit h (by decide)
  have h5 : c ≠ '\x0b' := ne_of_isDigit h (by decide)
  have h6 : c ≠ '\x0c' := ne_of_isDigit h (by decide)
  simp [isPySpace, h1, h2, h3, h4, h5, h6]

theorem isDig_of_isDigit {c : Char} (h : c.isDigit = true) : isDig c = true := by
  simp only [Char.isDigit, Bool.and_eq_true, decide_eq_true_eq] at h
  simp only [isDig, decide_eq_true_eq]
  exact ⟨h.1, h.2⟩

theorem isDig_false_of_isDigit_false {c : Char} (h : c.isDigit = false) : isDig c = false := by
  cases hc : isDig c with
  | false => rfl
  | true =>
    simp only [isDig, decide_eq_true_eq] at hc
    simp only [Char.isDigit, Bool.and_eq_true, decide_eq_true_eq, Bool.and_eq_false_iff] at h
    rcases h with h | h <;> simp_all [Char.le_def]

theorem toLower_of_isDigit {c : Char} (h : c.isDigit = true) : c.toLower = c := by
  simp only [Char.isDigit, Bool.and_eq_true, decide_eq_true_eq] at h
  unfold Char.toLower
  rw [if_neg]
  intro hco
  have : c.toNat ≤ 57 := by
    have := h.2
    simpa [Char.toNat] using this
  omega

theorem dropWhile_eq_self_of {p : Char → Bool} {cs : List Char}
    (h : ∀ c ∈ cs, p c = false) : cs.dropWhile p = cs := by
  cases cs with
  | nil => rfl
  | cons c r => simp [List.dropWhile, h c (by simp)]

theorem pyStrip_eq_self {cs : List Char} (h : ∀ c ∈ cs, isPySpace c = false) :
    pyStrip cs = cs := by
  unfold pyStrip
  rw [dropWhile_eq_self_of h, dropWhile_eq_self_of (by simpa using h), List.reverse_reverse]

theorem filter_eq_self_of {p : Char → Bool} {cs : List Char}
    (h : ∀ c ∈ cs, p c = true) : cs.filter p = cs :=
  List.filter_eq_self.2 h

end HDoc

namespace HDoc

theorem digitsUGo_stops {rest : List Char} (hrest : rest = [] ∨ ∃ r2, rest = '.' :: r2) :
    ∀ (ds : List Char), (∀ c ∈ ds, c.isDigit = true) → ∀ acc cnt : Nat,
      ∃ v, digitsUGo acc cnt (ds ++ rest) = (v, cnt + ds.length, rest) := by
  intro ds
  induction ds with
  | nil =>
    intro _ acc cnt
    rcases hrest with rfl | ⟨r2, rfl⟩
    · exact ⟨acc, rfl⟩
    · refine ⟨acc, ?_⟩
      rw [List.nil_append, digitsUGo.eq_def]
      dsimp only
      rw [if_neg (by decide), if_neg (by decide)]
      simp
  | cons c ds ih =>
    intro h acc cnt
    have hc : isDig c = true := isDig_of_isDigit (h c (by simp))
    obtain ⟨v, hv⟩ := ih (fun x hx => h x (by simp [hx])) (10 * acc + dv c) (cnt + 1)
    refine ⟨v, ?_⟩
    rw [List.cons_append, digitsUGo.eq_def]
    simp only [hc, if_pos, reduceIte, hv, List.length_cons]
    refine congrArg _ (congrArg (·, rest) ?_)
    omega

theorem digitsU_all {ds rest : List Char} (hne : ds ≠ [])
    (hds : ∀ c ∈ ds, c.isDigit = true)
    (hrest : rest = [] ∨ ∃ r2, rest = '.' :: r2) :
    ∃ v n, digitsU (ds ++ rest) = some (v, n, rest) := by
  cases ds with
  | nil => exact absurd rfl hne
  | cons c ds =>
    have hc : isDig c = true := isDig_of_isDigit (hds c (by simp))
    obtain ⟨v, hv⟩ := digitsUGo_stops hrest ds (fun x hx => hds x (by simp [hx])) (dv c) 1
    refine ⟨v, 1 + ds.length, ?_⟩
    rw [List.cons_append, digitsU]
    simp [hc, hv]

theorem parseMantissa_shape {ds tl : List Char} (hne : ds ≠ [])
    (hds : ∀ c ∈ ds, c.isDigit = true)
    (htl : tl = [] ∨ ∃ e1 e2, tl = ['.', e1, e2] ∧ e1.isDigit = true ∧ e2.isDigit = true) :
    ∃ num den, parseMantissa (ds ++ tl) = some (num, den, []) := by
  have hrest : tl = [] ∨ ∃ r2, tl = '.' :: r2 := by
    rcases htl with rfl | ⟨e1, e2, rfl, _, _⟩
    · exact Or.inl rfl
    · exact Or.inr ⟨[e1, e2], rfl⟩
  obtain ⟨v, n, hd⟩ := digitsU_all hne hds hrest
  unfold parseMantissa
  rw [hd]
  rcases htl with rfl | ⟨e1, e2, rfl, he1, he2⟩
  · simp [parseExp, mantissaVal]
  · obtain ⟨v2, n2, hd2⟩ := @digitsU_all [e1, e2] []
      (by simp)
      (by
        intro c hc
        simp only [List.mem_cons, List.not_mem_nil, or_false] at hc
        rcases hc with rfl | rfl
        · exact he1
        · exact he2)
      (Or.inl rfl)
    rw [List.append_nil] at hd2
    simp [hd2, parseExp, mantissaVal]

theorem ciPrefix_cons (a : Char) (w : List Char) (c : Char) (r : List Char) :
    ciPrefix (a :: w) (c :: r) = if c.toLower = a then ciPrefix w r else none := rfl

/-- `float(...)` succeeds with a finite value on every string of shape
`digits` or `digits.digitdigit`. -/
theorem pyFloatParse_digit_shape {ds tl : List Char} (hne : ds ≠ [])
    (hds : ∀ c ∈ ds, c.isDigit = true)
    (htl : tl = [] ∨ ∃ e1 e2, tl = ['.', e1, e2] ∧ e1.isDigit = true ∧ e2.isDigit = true) :
    ∃ q : ℚ, pyFloatParse (ds ++ tl) = some (.finite q) := by
  obtain ⟨num, den, hm⟩ := parseMantissa_shape hne hds htl
  cases ds with
  | nil => exact absurd rfl hne
  | cons c ds' =>
    have hcd : c.isDigit = true := hds c (by simp)
    refine ⟨mkRat (num : Int) den, ?_⟩
    unfold pyFloatParse
    rw [List.cons_append, List.dropWhile_cons]
    simp only [isPySpace_of_isDigit hcd, Bool.false_eq_true, reduceIte,
      if_neg (ne_of_isDigit hcd (d := '-') (by decide)),
      if_neg (ne_of_isDigit hcd (d := '+') (by decide))]
    have hinfy : ciPrefix ['i', 'n', 'f', 'i', 'n', 'i', 't', 'y'] (c :: (ds' ++ tl)) = none := by
      rw [ciPrefix_cons, toLower_of_isDigit hcd,
        if_neg (ne_of_isDigit hcd (d := 'i') (by decide))]
    have hinf : ciPrefix ['i', 'n', 'f'] (c :: (ds' ++ tl)) = none := by
      rw [ciPrefix_cons, toLower_of_isDigit hcd,
        if_neg (ne_of_isDigit hcd (d := 'i') (by decide))]
    have hnan : ciPrefix ['n', 'a', 'n'] (c :: (ds' ++ tl)) = none := by
      rw [ciPrefix_cons, toLower_of_isDigit hcd,
        if_neg (ne_of_isDigit hcd (d := 'n') (by decide))]
    rw [List.cons_append] at hm
    simp only [hinfy, hinf, hnan, hm]
    simp

end HDoc

namespace HDoc

theorem alookup_isSome_of_mem {α : Type} {l : List (String × α)} {k : String}
    (h : k ∈ l.map Prod.fst) : ∃ v, alookup k l = some v := by
  induction l with
  | nil => simp at h
  | cons a t ih =>
    obtain ⟨k1, v1⟩ := a
    by_cases he : k = k1
    · exact ⟨v1, by simp [alookup, he]⟩
    · simp only [List.map_cons, List.mem_cons] at h
      rcases h with h | h
    
      · exact absurd h he
      · obtain ⟨v, hv⟩ := ih h
        exact ⟨v, by simp [alookup, he, hv]⟩

theorem keys_extract_sublist (cs : List Char) (pats : List (String × Pat)) :
    List.Sublist ((extract_using_patterns cs pats).map Prod.fst) (pats.map Prod.fst) := by
  induction pats with
  | nil => simp [extract_using_patterns]
  | cons a l ih =>
    obtain ⟨n, p⟩ := a
    cases hx : searchCapture p cs <;> simp only [extract_using_patterns, hx, List.map_cons]
    · exact ih.cons n
    · exact ih.cons₂ n

theorem extract_keys_nodup {cs : List Char} {pats : List (String × Pat)}
    (h : (pats.map Prod.fst).Nodup) :
    ((extract_using_patterns cs pats).map Prod.fst).Nodup :=
  h.sublist (keys_extract_sublist cs pats)

theorem dictUpdate_mapped_keys (base ext : List (String × String)) :
    ((base.map fun kv =>
      match alookup kv.1 ext with
      | some v => (kv.1, v)
      | none => kv).map Prod.fst) = base.map Prod.fst := by
  induction base with
  | nil => rfl
  | cons a l ih =>
    obtain ⟨k1, v1⟩ := a
    cases hx : alookup k1 ext <;> simp [hx, ih]

theorem dictUpdate_keys_nodup {base ext : List (String × String)}
    (hb : (base.map Prod.fst).Nodup) (he : (ext.map Prod.fst).Nodup) :
    ((dictUpdate base ext).map Prod.fst).Nodup := by
  unfold dictUpdate
  rw [List.map_append, dictUpdate_mapped_keys]
  refine List.Nodup.append hb (he.sublist ((List.filter_sublist ext).map Prod.fst)) ?_
  intro a ha hmem
  obtain ⟨kv, hkv, hfst⟩ := List.mem_map.1 hmem
  have hcond := (List.mem_filter.1 hkv).2
  rw [hfst] at hcond
  obtain ⟨v, hv⟩ := alookup_isSome_of_mem ha
  rw [hv] at hcond
  cases hcond

theorem doc_type_patterns_cases {s : String} {pats : List (String × Pat)}
    (h : alookup s doc_type_patterns = some pats) :
    pats = [("claim_number", claim_number_pat), ("group_number", group_number_pat),
            ("adjustment_reason", adjustment_reason_pat),
            ("patient_responsibility", patient_responsibility_pat)] ∨
    pats = [("medication", medication_pat), ("dosage", dosage_pat),
            ("frequency", frequency_pat), ("refills", refills_pat),
            ("prescriber", prescriber_pat)] ∨
    pats = [("report_type", report_type_pat), ("findings", findings_pat),
            ("impression", impression_pat), ("recommendations", recommendations_pat)] := by
  simp only [doc_type_patterns, alookup] at h
  split_ifs at h <;> simp_all

theorem rawFields_keys_nodup (text : String) (dt : Option String) :
    ((rawFields text dt).map Prod.fst).Nodup := by
  have hc : ((extract_using_patterns text.data commonPatterns).map Prod.fst).Nodup :=
    extract_keys_nodup (by decide)
  cases dt with
  | none => exact hc
  | some s =>
    simp only [rawFields]
    split_ifs with hs
    · cases hlo : alookup s doc_type_patterns with
      | none => exact hc
      | some pats =>
        have hp : (pats.map Prod.fst).Nodup := by
          rcases doc_type_patterns_cases hlo with rfl | rfl | rfl <;> decide
        exact dictUpdate_keys_nodup hc (extract_keys_nodup hp)
    · exact hc

theorem alookup_extract_first {cs : List Char} {pats : List (String × Pat)} {k : String}
    {p : Pat} (hnd : (pats.map Prod.fst).Nodup) (hk : alookup k pats = some p) :
    alookup k (extract_using_patterns cs pats) = searchCapture p cs := by
  induction pats with
  | nil => simp [alookup] at hk
  | cons a l ih =>
    obtain ⟨k1, p1⟩ := a
    simp only [List.map_cons, List.nodup_cons] at hnd
    by_cases he : k = k1
    · subst he
      rw [alookup, if_pos rfl] at hk
      injection hk with hk
      subst hk
      cases hx : searchCapture p1 cs <;> simp only [extract_using_patterns, hx]
      · exact alookup_eq_none_of_not_mem (fun hm => hnd.1 (mem_keys_extract hm))
      · simp [alookup]
    · simp only [alookup, if_neg he] at hk
      cases hx : searchCapture p1 cs <;> simp only [extract_using_patterns, hx]
      · exact ih hnd.2 hk
      · rw [alookup, if_neg he]
        exact ih hnd.2 hk

theorem alookup_post {fs : List (String × String)} {k : String} {v : Value}
    (hnd : (fs.map Prod.fst).Nodup)
    (h : alookup k (post_process_fields fs) = some v) :
    ∃ raw, alookup k fs = some raw ∧ raw ≠ "" ∧ v = processValue k raw := by
  induction fs with
  | nil => simp [post_process_fields, alookup] at h
  | cons a l ih =>
    obtain ⟨k1, r⟩ := a
    simp only [List.map_cons, List.nodup_cons] at hnd
    by_cases he : k = k1
    · subst he
      by_cases hr : r = ""
      · simp only [post_process_fields, List.filterMap_cons, hr, reduceIte] at h
        exact absurd (mem_keys_post (mem_of_alookup_some h)) hnd.1
      · simp only [post_process_fields, List.filterMap_cons, hr, reduceIte] at h
        rw [alookup, if_pos rfl] at h
        injection h with h
        exact ⟨r, by simp [alookup], hr, h.symm⟩
    · by_cases hr : r = "" <;>
        simp only [post_process_fields, List.filterMap_cons, hr, reduceIte] at h
      · obtain ⟨raw, h1, h2, h3⟩ := ih hnd.2 h
        exact ⟨raw, by simp [alookup, he, h1], h2, h3⟩
      · rw [alookup, if_neg he] at h
        obtain ⟨raw, h1, h2, h3⟩ := ih hnd.2 h
        exact ⟨raw, by simp [alookup, he, h1], h2, h3⟩

end HDoc

namespace HDoc

theorem rawFields_amount (text : String) (dt : Option String) :
    alookup "amount" (rawFields text dt) = searchCapture amount_pat text.data := by
  have hcommon : alookup "amount" (extract_using_patterns text.data commonPatterns) =
      searchCapture amount_pat text.data :=
    alookup_extract_first (by decide) rfl
  cases dt with
  | none => exact hcommon
  | some s =>
    simp only [rawFields]
    split_ifs with hs
    · cases hlo : alookup s doc_type_patterns with
      | none => exact hcommon
      | some pats =>
        rw [alookup_dictUpdate]
        have hnone : alookup "amount" (extract_using_patterns text.data pats) = none := by
          rcases doc_type_patterns_cases hlo with rfl | rfl | rfl <;>
            exact alookup_extract_none (by decide)
        rw [hnone, noneOr]
        exact hcommon
    · exact hcommon

theorem rawFields_pr (text : String) (dt : Option String) :
    alookup "patient_responsibility" (rawFields text dt) = none ∨
    alookup "patient_responsibility" (rawFields text dt) =
      searchCapture patient_responsibility_pat text.data := by
  have hcommon : alookup "patient_responsibility"
      (extract_using_patterns text.data commonPatterns) = none :=
    alookup_extract_none (by decide)
  cases dt with
  | none => exact Or.inl hcommon
  | some s =>
    simp only [rawFields]
    split_ifs with hs
    · cases hlo : alookup s doc_type_patterns with
      | none => exact Or.inl hcommon
      | some pats =>
        rw [alookup_dictUpdate, hcommon, Option.or_none]
        rcases doc_type_patterns_cases hlo with rfl | rfl | rfl
        · exact Or.inr (alookup_extract_first (by decide) rfl)
        · exact Or.inl (alookup_extract_none (by decide))
        · exact Or.inl (alookup_extract_none (by decide))
    · exact Or.inl hcommon

theorem processValue_of_digit_shape {key : String}
    (hkey : key = "amount" ∨ key = "patient_responsibility")
    {ds tl : List Char} (hdne : ds ≠ []) (hdsd : ∀ c ∈ ds, c.isDigit = true)
    (htl : tl = [] ∨ ∃ e1 e2, tl = ['.', e1, e2] ∧ e1.isDigit = true ∧ e2.isDigit = true) :
    ∃ q : ℚ, processValue key ⟨pyStrip (ds ++ tl)⟩ = Value.num (.finite q) := by
  have hall : ∀ c ∈ ds ++ tl, c.isDigit = true ∨ c = '.' := by
    intro c hc
    rcases List.mem_append.1 hc with h | h
    · exact Or.inl (hdsd c h)
    · rcases htl with rfl | ⟨e1, e2, rfl, he1, he2⟩
      · simp at h
      · simp only [List.mem_cons, List.not_mem_nil, or_false] at h
        rcases h with rfl | rfl | rfl
        · exact Or.inr rfl
        · exact Or.inl he1
        · exact Or.inl he2
  have hnospace : ∀ c ∈ ds ++ tl, isPySpace c = false := fun c hc =>
    (hall c hc).elim isPySpace_of_isDigit (fun h => by subst h; decide)
  have hstrip : pyStrip (ds ++ tl) = ds ++ tl := pyStrip_eq_self hnospace
  have hclean : stripSyms (pyStrip (String.mk (pyStrip (ds ++ tl))).data) = ds ++ tl := by
    show stripSyms (pyStrip (pyStrip (ds ++ tl))) = ds ++ tl
    rw [hstrip, hstrip]
    unfold stripSyms
    rw [filter_eq_self_of (fun c hc => decide_eq_true
        ((hall c hc).elim (fun h => ne_of_isDigit h (by decide)) (fun h => by subst h; decide))),
      filter_eq_self_of (fun c hc => decide_eq_true
        ((hall c hc).elim (fun h => ne_of_isDigit h (by decide)) (fun h => by subst h; decide))),
      hstrip]
  obtain ⟨q, hq⟩ := pyFloatParse_digit_shape hdne hdsd htl
  refine ⟨q, ?_⟩
  unfold processValue
  rw [if_pos hkey, hclean, hq]

/-- C10: whenever `amount` or `patient_responsibility` appears among the
extracted fields of a result produced without error, its value is a finite
decimal number, never a string fallback: the registered patterns capture only
digit runs with an optional two-digit decimal part, on which `float(...)`
always succeeds. -/
theorem amounts_always_numeric :
    ∀ (now text : String) (dt : Option String),
      (extract_structured_data now text dt).error = none →
      (∀ v, alookup "amount"
          (((extract_structured_data now text dt).extracted_fields).getD []) = some v →
        ∃ q : ℚ, v = Value.num (.finite q)) ∧
      (∀ v, alookup "patient_responsibility"
          (((extract_structured_data now text dt).extracted_fields).getD []) = some v →
        ∃ q : ℚ, v = Value.num (.finite q)) := by
  intro now text dt _
  by_cases htext : text = ""
  · subst htext
    constructor <;> intro v hv <;> simp [extract_structured_data, alookup] at hv
  · have hres : ((extract_structured_data now text dt).extracted_fields).getD [] =
        post_process_fields (rawFields text dt) := by
      simp [extract_structured_data, htext, runPipeline, pure, Except.pure]
    rw [hres]
    constructor <;> intro v hv
    · obtain ⟨raw, hraw, hne0, hv⟩ := alookup_post (rawFields_keys_nodup text dt) hv
      rw [rawFields_amount] at hraw
      unfold searchCapture at hraw
      cases hsp : searchPat amount_pat text.data with
      | none => rw [hsp] at hraw; cases hraw
      | some cap =>
        rw [hsp, Option.map_some'] at hraw
        injection hraw with hraw
        obtain ⟨u, t, htm, hcapt⟩ := searchPat_capture hsp
        obtain ⟨ds, tl, ht1, hdne, hdsd, htl⟩ := amount_grp_shape htm
        rw [hv, ← hraw, hcapt, ht1]
        exact processValue_of_digit_shape (Or.inl rfl) hdne hdsd htl
    · obtain ⟨raw, hraw, hne0, hv⟩ := alookup_post (rawFields_keys_nodup text dt) hv
      rcases rawFields_pr text dt with hnone | hsome
      · rw [hnone] at hraw; cases hraw
      · rw [hsome] at hraw
        unfold searchCapture at hraw
        cases hsp : searchPat patient_responsibility_pat text.data with
        | none => rw [hsp] at hraw; cases hraw
        | some cap =>
          rw [hsp, Option.map_some'] at hraw
          injection hraw with hraw
          obtain ⟨u, t, htm, hcapt⟩ := searchPat_capture hsp
          obtain ⟨ds, e1, e2, ht1, hdne, hdsd, he1, he2⟩ := pr_grp_shape htm
          rw [hv, ← hraw, hcapt, ht1]
          exact processValue_of_digit_shape (Or.inr rfl) hdne hdsd
            (Or.inr ⟨e1, e2, rfl, he1, he2⟩)

/-- Witness for C10 on a concrete insurance-claim text carrying both fields. -/
theorem amounts_always_numeric_witness :
    (extract_structured_data "T0" "Total: $5.25\nPatient Responsibility: $20.50"
        (some "insurance_claim")).error = none ∧
    ((∀ v, alookup "amount"
        (((extract_structured_data "T0" "Total: $5.25\nPatient Responsibility: $20.50"
            (some "insurance_claim")).extracted_fields).getD []) = some v →
      ∃ q : ℚ, v = Value.num (.finite q)) ∧
     (∀ v, alookup "patient_responsibility"
        (((extract_structured_data "T0" "Total: $5.25\nPatient Responsibility: $20.50"
            (some "insurance_claim")).extracted_fields).getD []) = some v →
      ∃ q : ℚ, v = Value.num (.finite q))) ∧
    alookup "amount"
      (((extract_structured_data "T0" "Total: $5.25\nPatient Responsibility: $20.50"
          (some "insurance_claim")).extracted_fields).getD []) =
        some (Value.num (.finite (mkRat 21 4))) ∧
    alookup "patient_responsibility"
      (((extract_structured_data "T0" "Total: $5.25\nPatient Responsibility: $20.50"
          (some "insurance_claim")).extracted_fields).getD []) =
        some (Value.num (.finite (mkRat 41 2))) :=
  ⟨by decide,
   amounts_always_numeric "T0" "Total: $5.25\nPatient Responsibility: $20.50"
     (some "insurance_claim") (by decide),
   by decide, by decide⟩

end HDoc
